import Mathlib

/-!
Verification development for the Contextual Retrieval & Reranking Engine
(`src/retrieval/embeddings.py`, `src/retrieval/vector_store.py`,
`src/retrieval/retriever.py`).

The Python code is shallowly embedded:
* strings are Lean `String`s and the relevant Python `str` methods
  (`strip`, `lower`, `title`, `isupper`, `split`) are modelled character by
  character with the same ASCII semantics the code relies on;
* the remote embedding call and the encyclopedia page fetch are oracle
  functions supplied as parameters;
* Python exceptions (`IndexError`, `ValueError`, network errors) are
  modelled with `Except`: raising is `.error`, normal return is `.ok`;
* `numpy` float32 vectors are modelled as `List ℚ` in the retrieval
  pipeline (where only dot products and comparisons are used) and as
  `List ℝ` in the embedding-normalization module (where an L2 norm is
  taken).
-/

namespace CancerAI

/-! ### Python string primitives -/

/-- Characters matched by the leading class `[A-Za-z0-9]` of the
tokenizer regex in `_tokenize_bio`. -/
def isAlnum (c : Char) : Bool := c.isAlpha || c.isDigit

/-- Characters matched by the continuation class `[A-Za-z0-9\-']` of the
tokenizer regex in `_tokenize_bio`. -/
def isTokChar (c : Char) : Bool := isAlnum c || c = '-' || c = '\''

/-- Python `str.strip()`: remove whitespace from both ends. -/
def pyStrip (s : String) : String :=
  ⟨((s.data.dropWhile Char.isWhitespace).reverse.dropWhile Char.isWhitespace).reverse⟩

/-- Python `str.lower()` (ASCII). -/
def pyLower (s : String) : String := ⟨s.data.map Char.toLower⟩

/-- Python `str.isupper()`: at least one cased character and no lowercase
cased character (ASCII: cased = alphabetic). -/
def pyIsUpper (s : String) : Bool :=
  s.data.any Char.isAlpha && s.data.all (fun c => !c.isLower)

/-- Helper for Python `str.title()`: the boolean records whether the
previous character was alphabetic. -/
def pyTitleAux : Bool → List Char → List Char
  | _, [] => []
  | prev, c :: rest =>
    if c.isAlpha then
      (if prev then c.toLower else c.toUpper) :: pyTitleAux true rest
    else
      c :: pyTitleAux false rest

/-- Python `str.title()`: first letter of each alphabetic run uppercased,
the rest lowercased. -/
def pyTitle (s : String) : String := ⟨pyTitleAux false s.data⟩

/-- Helper for Python `str.split(sep)` with a one-character separator:
the accumulator holds the current field reversed. -/
def pySplitAux (sep : Char) : List Char → List Char → List String
  | [], acc => [⟨acc.reverse⟩]
  | c :: rest, acc =>
    if c = sep then (⟨acc.reverse⟩ : String) :: pySplitAux sep rest []
    else pySplitAux sep rest (c :: acc)

/-- Python `str.split(sep)` for a one-character separator (empty fields
are kept, as in Python). -/
def pySplit (sep : Char) (s : String) : List String := pySplitAux sep s.data []

/-- Python `sep.join(parts)`. -/
def pyJoin (sep : String) : List String → String
  | [] => ""
  | [x] => x
  | x :: xs => x ++ sep ++ pyJoin sep xs

/-- Python list indexing `l[i]` with negative-index wraparound;
`none` models an `IndexError`. -/
def pyGet {α : Type} (l : List α) (i : Int) : Option α :=
  let j := if i < 0 then (l.length : Int) + i else i
  if j < 0 then none else l.get? j.toNat

/-! ### Tokenizer (`_tokenize_bio`) -/

/-- Helper for `re.findall(r"[A-Za-z0-9][A-Za-z0-9\-']*", text)`: the
accumulator holds the reversed characters of the token being built (empty
when no token is open). A token starts at an alphanumeric character and
extends greedily over token characters. -/
def findallAux : List Char → List Char → List String
  | [], acc => if acc.isEmpty then [] else [⟨acc.reverse⟩]
  | c :: rest, acc =>
    if acc.isEmpty then
      if isAlnum c then findallAux rest [c] else findallAux rest []
    else
      if isTokChar c then findallAux rest (c :: acc)
      else (⟨acc.reverse⟩ : String) :: findallAux rest []

/-- Model of `_tokenize_bio`: regex token extraction followed by the (vacuous,
but faithfully modelled) filter keeping tokens whose `strip()` is
truthy. -/
def tokenizeBio (text : String) : List String :=
  (findallAux text.data []).filter (fun t => pyStrip t ≠ "")

/-! ### Candidate-title extraction (`extract_candidate_titles`) -/

/-- The `_STOPWORDS` set of `retriever.py`. -/
def stopwords : List String :=
  ["what", "which", "that", "this", "these", "those",
   "who", "whom", "whose", "where", "when", "why", "how",
   "does", "do", "did", "is", "are", "was", "were", "be",
   "an", "a", "the", "of", "and", "or", "in", "on", "for",
   "to", "from", "with", "as", "by", "about", "describe", "explain"]

/-- Bigram pass of `extract_candidate_titles`: adjacent token pairs joined
by a space, kept when longer than 4 characters. -/
def bigramCandidates : List String → List String
  | a :: b :: rest =>
    let bg := a ++ " " ++ b
    if 4 < bg.length then bg :: bigramCandidates (b :: rest)
    else bigramCandidates (b :: rest)
  | _ => []

/-- Unigram pass of `extract_candidate_titles`: drop stop words, keep a
token when its length is at least 4, or it contains a digit, or it is
entirely uppercase. -/
def unigramCandidates (tokens : List String) : List String :=
  tokens.filter (fun t =>
    !(stopwords.contains (pyLower t)) &&
    (4 ≤ t.length || t.data.any Char.isDigit || pyIsUpper t))

/-- Deduplication pass of `extract_candidate_titles`: each candidate is
normalized (`title()`-cased unless fully uppercase) and kept on first
occurrence. -/
def dedupTitles : List String → List String → List String
  | [], _ => []
  | c :: rest, seen =>
    let cFmt := if pyIsUpper c then c else pyTitle c
    if seen.contains cFmt then dedupTitles rest seen
    else cFmt :: dedupTitles rest (cFmt :: seen)

/-- Model of `extract_candidate_titles(query, max_candidates)`. -/
def extract_candidate_titles (query : String) (max_candidates : Nat) : List String :=
  let tokens := tokenizeBio query
  if tokens.isEmpty then []
  else
    let candidates := bigramCandidates tokens ++ unigramCandidates tokens
    (dedupTitles candidates []).take max_candidates

/-! ### Embedding provider (`embeddings.py`)

The numeric part of `SolarEmbedder.encode` is modelled over the reals:
`np.linalg.norm` is the exact L2 norm and `np.clip(norms, 1e-12, None)`
is `max · (1/10^12)`. -/

/-- Sum of squares of a vector's entries. -/
def sumSq (v : List ℝ) : ℝ := (v.map (fun x => x * x)).sum

/-- The L2 norm `np.linalg.norm(v)`. -/
noncomputable def l2norm (v : List ℝ) : ℝ := Real.sqrt (sumSq v)

/-- One row of step 5 of `SolarEmbedder.encode`:
`arr / np.clip(norms, 1e-12, None)`. -/
noncomputable def l2normalize (v : List ℝ) : List ℝ :=
  v.map (fun x => x / max (l2norm v) (1 / 10 ^ 12))

/-- Model of `SolarEmbedder.encode`. The remote `embed_query` call is the oracle;
`none` models a raised exception, which the surrounding `try` catches,
returning the empty array. Empty and whitespace-only entries are filtered
out before encoding; an all-filtered input also yields the empty array. -/
noncomputable def SolarEmbedder.encode (oracle : String → Option (List ℝ))
    (texts : List String) : List (List ℝ) :=
  let valid := texts.filter (fun t => pyStrip t ≠ "")
  if valid.isEmpty then []
  else
    match valid.mapM oracle with
    | none => []
    | some vectors => vectors.map l2normalize

/-! ### Vector store (`vector_store.py`) -/

/-- One metadata row of the `.jsonl` store; retrieval reads only its
`"text"` field (`meta.get("text", "")`), modelled as an optional field. -/
structure MetaEntry where
  text : Option String
deriving Repr, DecidableEq

/-- A passage dictionary as built by the retrieval pipeline. -/
structure Passage where
  text : String
  source : Option String := none
  title : Option String := none
  score : Option ℚ := none
deriving Repr, DecidableEq

/-- Python exceptions raised by the retrieval pipeline. -/
inductive PyErr where
  | indexError
  | dimMismatch (indexDim queryDim : Nat)
  | lookupError (title : String)
deriving Repr, DecidableEq

/-- The loaded FAISS index: dimension `d`, the parallel metadata rows, and
the library's native `index.search` as an oracle returning raw
`(score, slot id)` pairs, where slot id `-1` is the "no match"
sentinel. -/
structure FaissIndex where
  d : Nat
  metadata : List MetaEntry
  rawSearch : List ℚ → Nat → List (ℚ × Int)

/-- The result-building loop of `FaissIndex.search`: a hit whose id is
`-1` or at least `len(metadata)` is skipped without dereferencing; a
surviving id is dereferenced with Python list indexing (a failed
dereference is an `IndexError`). -/
def resolveHits (metadata : List MetaEntry) :
    List (ℚ × Int) → Except PyErr (List Passage)
  | [] => .ok []
  | (score, idx) :: rest =>
    if idx = -1 ∨ (metadata.length : Int) ≤ idx then resolveHits metadata rest
    else
      match pyGet metadata idx with
      | none => .error .indexError
      | some meta =>
        (resolveHits metadata rest).map
          (fun rs => { text := meta.text.getD (""), score := some score } :: rs)

/-- Model of `FaissIndex.search`: the dimension check, then the native search, then
the result-building loop. -/
def FaissIndex.search (ix : FaissIndex) (query_emb : List ℚ) (top_k : Nat) :
    Except PyErr (List Passage) :=
  if query_emb.length ≠ ix.d then .error (.dimMismatch ix.d query_emb.length)
  else resolveHits ix.metadata (ix.rawSearch query_emb top_k)

/-! ### Retrieval pipeline (`retriever.py`) -/

/-- The caller-facing view of `SolarEmbedder.encode` inside the retrieval
pipeline: text in, list of returned embedding rows out (empty on a caught
failure or an all-filtered input), rows abstracted as rational vectors. -/
def Emb := String → List (List ℚ)

/-- The dot product `(q_emb * c_emb).sum()`. -/
def dotQ (v w : List ℚ) : ℚ := (List.zipWith (fun a b => a * b) v w).sum

/-- Model of `search_faiss_index`: `encode(query)[0]` (an `IndexError` when
`encode` returned the empty array), the index search, then the source tag
stamped on each result. -/
def search_faiss_index (embedder : Emb) (query : String) (index : FaissIndex)
    (top_k : Nat) (source_tag : String) : Except PyErr (List Passage) :=
  match (embedder query).head? with
  | none => .error .indexError
  | some q_emb => do
      let results ← index.search q_emb top_k
      pure (results.map (fun r => { r with source := some source_tag }))

/-- The encyclopedia oracle: `.ok none` is a title whose page does not
exist, `.ok (some body)` an existing page with its body text, `.error` a
raised network/lookup exception. -/
def Fetch := String → Except PyErr (Option String)

/-- The chunks contributed by one existing page: split the body on line
breaks, keep paragraphs whose stripped length exceeds 50, take the first
three, tag each with the title. -/
def titleChunks (title body : String) : List Passage :=
  let paragraphs := (pySplit '\n' body).filter (fun p => 50 < (pyStrip p).length)
  (paragraphs.take 3).map (fun p =>
    { text := p, source := some ("Wikipedia (" ++ title ++ ")"),
      title := some title })

/-- The per-title loop of `search_wikipedia_chunks`: a raised fetch
exception propagates (there is no handler in the loop); a title whose
page does not exist is skipped. -/
def wikiLoop (fetch : Fetch) : List String → Except PyErr (List Passage)
  | [] => .ok []
  | title :: rest => do
      let page ← fetch title
      match page with
      | none => wikiLoop fetch rest
      | some body => do
          let more ← wikiLoop fetch rest
          pure (titleChunks title body ++ more)

/-- Model of `search_wikipedia_chunks`. -/
def search_wikipedia_chunks (fetch : Fetch) (query : String) (max_pages : Nat) :
    Except PyErr (List Passage) :=
  let candidates := extract_candidate_titles query max_pages
  if candidates.isEmpty then .ok []
  else wikiLoop fetch candidates

/-- The score stored on an item at sort time (`x["score"]`; the key is
always present once assigned by the scoring loop). -/
def scoreOf (p : Passage) : ℚ := p.score.getD 0

/-- The comparison modelling Python `list.sort(key=..., reverse=True)`,
which is a stable descending sort: `a` stays before `b` exactly when
`b`'s score does not exceed `a`'s. -/
def scoreDesc (a b : Passage) : Bool := scoreOf b ≤ scoreOf a

/-- The scoring loop of `rerank_results`: each candidate's text is
encoded (`encode(c_text)[0]` raises `IndexError` on an empty encode
result) and the cosine score is assigned to the item. -/
def scoreLoop (embedder : Emb) (q_emb : List ℚ) :
    List Passage → Except PyErr (List Passage)
  | [] => .ok []
  | item :: rest =>
    match (embedder item.text).head? with
    | none => .error .indexError
    | some c_emb =>
      (scoreLoop embedder q_emb rest).map
        (fun tail => { item with score := some (dotQ q_emb c_emb) } :: tail)

/-- Model of `rerank_results`. The Python function assigns `item["score"]` in
place on each candidate dict of the caller's pool and returns the sorted,
truncated list of those same dicts; the returned pair is (the caller's
pool as it stands after the call, the returned list). Python's
`list.sort` is stable, and `reverse=True` preserves stability, so the
sort is the stable merge sort under `scoreDesc`. -/
def rerank_results (embedder : Emb) (query : String) (candidates : List Passage)
    (top_k : Nat) : Except PyErr (List Passage × List Passage) :=
  if candidates.isEmpty then .ok (candidates, [])
  else
    match (embedder query).head? with
    | none => .error .indexError
    | some q_emb => do
        let scored ← scoreLoop embedder q_emb candidates
        pure (scored, (scored.mergeSort scoreDesc).take top_k)

/-- Per-passage formatting of `get_relevant_context`: the bracketed
source tag (default `"Unknown"` when the key is absent), a line break,
then the stripped passage text. -/
def format_chunk (c : Passage) : String :=
  "[" ++ c.source.getD ("Unknown") ++ "]\n" ++ pyStrip c.text

/-- Model of `get_relevant_context`: pool the index hits (when a DB is loaded) and
the encyclopedia chunks (when enabled), rerank the pool, format the
survivors, and fall back to the fixed sentinel when nothing survives.
Statements are sequenced with `Except.bind`, so any raised exception
propagates out of the function. -/
def get_relevant_context (embedder : Emb) (fetch : Fetch) (query : String)
    (vector_db : Option FaissIndex) (use_wiki : Bool) : Except PyErr String :=
  (match vector_db with
   | some db => search_faiss_index embedder query db 4 ("Paper_DB")
   | none => .ok []).bind (fun guideline_chunks =>
  (if use_wiki then search_wikipedia_chunks fetch query 2 else .ok []).bind
    (fun wiki_chunks =>
      let all_chunks := guideline_chunks ++ wiki_chunks
      (rerank_results embedder query all_chunks 6).bind (fun best =>
        let formatted := best.2.map format_chunk
        if formatted.isEmpty then .ok ("No relevant documents found.")
        else .ok (pyJoin ("\n\n") formatted))))

/-! ### Concrete fixtures used in witnesses and counterexamples -/

/-- A small loaded index: dimension 2, two metadata rows, one valid raw
hit. -/
def demoIndex : FaissIndex where
  d := 2
  metadata := [⟨some ("doc0")⟩, ⟨some ("doc1")⟩]
  rawSearch := fun _ _ => [(1, 0)]

/-- A loaded index whose native search reports four raw hits, two of
which carry invalid slot ids (the `-1` sentinel and an out-of-range 5). -/
def demoIndex2 : FaissIndex where
  d := 2
  metadata := [⟨some ("doc0")⟩, ⟨some ("doc1")⟩]
  rawSearch := fun _ _ => [(9 / 10, 0), (1 / 2, -1), (1 / 3, 5), (1 / 4, 1)]

/-- A sixty-character paragraph, long enough to survive the 50-character
paragraph filter. -/
def longPara : String := ⟨List.replicate 60 'x'⟩

/-- A fetch oracle that raises a lookup exception on the first candidate
title of the query "EGFR mutation analysis" and has a page with one long
paragraph for every other title. -/
def fetchBoom : Fetch := fun title =>
  if title = "Egfr Mutation" then .error (.lookupError ("Egfr Mutation"))
  else .ok (some longPara)

/-- The same oracle with the exception replaced by a missing page. -/
def fetchMiss : Fetch := fun title =>
  if title = "Egfr Mutation" then .ok none
  else .ok (some longPara)

/-- An embedding oracle whose (nonzero, hence non-degenerate) row has L2
norm below the clamping epsilon. -/
noncomputable def tinyOracle : String → Option (List ℝ) :=
  fun _ => some [1 / 10 ^ 30]

/-- Per-title contribution of the lookup loop when the fetch oracle never
raises an exception: a missing page contributes nothing, an existing page
contributes its paragraph chunks. -/
def wikiTitleChunks (fp : String → Option String) (title : String) :
    List Passage :=
  match fp title with
  | none => []
  | some body => titleChunks title body

/-- An embedder giving the text "b" score 3 against any query and every
other text score 1. -/
def embedDemo : String → List ℚ := fun t => if t = "b" then [3] else [1]

/-- A three-candidate pool with a tie between its first and last
passages under `embedDemo`. -/
def poolDemo : List Passage :=
  [{ text := "a" }, { text := "b" }, { text := "c" }]

/-- An embedding oracle returning the fixed row of norm 5. -/
noncomputable def ora34 : String → Option (List ℝ) := fun _ => some [3, 4]

end CancerAI

namespace CancerAI

/-! ### Helper lemmas -/

/-- Unfolding an `Except.bind` that produced a success. -/
theorem except_bind_ok {ε α β : Type} {x : Except ε α} {f : α → Except ε β}
    {b : β} (h : x.bind f = .ok b) : ∃ a, x = .ok a ∧ f a = .ok b := by
  cases x with
  | error e => exact absurd h (by simp [Except.bind])
  | ok a => exact ⟨a, rfl, by simpa [Except.bind] using h⟩

/-- The result-building loop ignores hits carrying the sentinel or an
out-of-range id: dropping them beforehand does not change the result. -/
theorem resolveHits_skip (metadata : List MetaEntry) (hits : List (ℚ × Int)) :
    resolveHits metadata hits
      = resolveHits metadata (hits.filter
          (fun h => !decide (h.2 = -1 ∨ (metadata.length : Int) ≤ h.2))) := by
  induction hits with
  | nil => rfl
  | cons h rest ih =>
    obtain ⟨s, idx⟩ := h
    by_cases hc : idx = -1 ∨ (metadata.length : Int) ≤ idx
    · simp [resolveHits, List.filter_cons, hc, ih]
      rw [if_neg (by omega)]
    · simp only [resolveHits, if_neg hc, List.filter_cons]
      rw [show (!decide ((s, idx).2 = -1 ∨ (metadata.length : Int) ≤ (s, idx).2))
          = true by simp [hc]]
      simp only [resolveHits, if_neg hc, ih]

/-- The result-building loop returns at most one passage per raw hit. -/
theorem resolveHits_length (metadata : List MetaEntry) (hits : List (ℚ × Int))
    (res : List Passage) (h : resolveHits metadata hits = .ok res) :
    res.length ≤ hits.length := by
  induction hits generalizing res with
  | nil =>
    simp only [resolveHits] at h
    cases h
    simp
  | cons hd rest ih =>
    obtain ⟨s, idx⟩ := hd
    by_cases hc : idx = -1 ∨ (metadata.length : Int) ≤ idx
    · simp only [resolveHits, if_pos hc] at h
      exact le_trans (ih res h) (by simp)
    · simp only [resolveHits, if_neg hc] at h
      cases hg : pyGet metadata idx with
      | none => rw [hg] at h; cases h
      | some meta =>
        rw [hg] at h
        cases hr : resolveHits metadata rest with
        | error e => rw [hr] at h; cases h
        | ok rs =>
          rw [hr] at h
          simp only [Except.map] at h
          cases h
          simpa using ih rs hr

/-- Transitivity of the descending score comparison. -/
theorem scoreDesc_trans :
    ∀ a b c : Passage, scoreDesc a b → scoreDesc b c → scoreDesc a c := by
  intro a b c hab hbc
  simp only [scoreDesc, decide_eq_true_eq] at *
  exact le_trans hbc hab

/-- Totality of the descending score comparison. -/
theorem scoreDesc_total : ∀ a b : Passage, scoreDesc a b || scoreDesc b a := by
  intro a b
  simp only [scoreDesc, Bool.or_eq_true, decide_eq_true_eq]
  exact le_total (scoreOf b) (scoreOf a)

/-- With a one-row embedder the scoring loop succeeds and assigns each
candidate the dot product of its embedding with the query embedding. -/
theorem scoreLoop_ok (embed1 : String → List ℚ) (q_emb : List ℚ)
    (cs : List Passage) :
    scoreLoop (fun t => [embed1 t]) q_emb cs
      = .ok (cs.map (fun item =>
          { item with score := some (dotQ q_emb (embed1 item.text)) })) := by
  induction cs with
  | nil => rfl
  | cons a l ih => simp only [scoreLoop, List.head?_cons, ih]; rfl

/-- All passages carrying one fixed score are pairwise tied under the
descending comparison. -/
theorem filter_score_pairwise (s : ℚ) (l : List Passage) :
    (l.filter (fun p => p.score == some s)).Pairwise
      (fun a b => scoreDesc a b = true) := by
  induction l with
  | nil => simp
  | cons a t ih =>
    by_cases h : (a.score == some s) = true
    · rw [List.filter_cons, if_pos h]
      refine List.Pairwise.cons ?_ ih
      intro b hb
      have hbs := (List.mem_filter.mp hb).2
      rw [beq_iff_eq] at h hbs
      simp [scoreDesc, scoreOf, h, hbs]
    · rw [List.filter_cons, if_neg h]
      exact ih

/-- Stability of the merge sort under `scoreDesc`: passages tied at one
score keep their original relative order, so filtering the sorted list at
any one score value recovers the filtered input. -/
theorem mergeSort_filter_score (s : ℚ) (l : List Passage) :
    (l.mergeSort scoreDesc).filter (fun p => p.score == some s)
      = l.filter (fun p => p.score == some s) := by
  have hsub : List.Sublist (l.filter (fun p => p.score == some s))
      (l.mergeSort scoreDesc) :=
    List.sublist_mergeSort scoreDesc_trans scoreDesc_total
      (filter_score_pairwise s l) (List.filter_sublist l)
  have hperm : List.Perm
      ((l.mergeSort scoreDesc).filter (fun p => p.score == some s))
      (l.filter (fun p => p.score == some s)) :=
    (List.mergeSort_perm l scoreDesc).filter _
  have hidem : (l.filter (fun p => p.score == some s)).filter
      (fun p => p.score == some s) = l.filter (fun p => p.score == some s) :=
    List.filter_eq_self.mpr (fun a ha => (List.mem_filter.mp ha).2)
  have h2 : List.Sublist (l.filter (fun p => p.score == some s))
      ((l.mergeSort scoreDesc).filter (fun p => p.score == some s)) := by
    have := hsub.filter (fun p => p.score == some s)
    rwa [hidem] at this
  exact (h2.eq_of_length hperm.length_eq.symm).symm

/-- The lookup loop under a never-raising fetch oracle: every candidate
title is probed, missing pages contribute nothing, and the chunks are
concatenated in candidate order. -/
theorem wikiLoop_ok (fp : String → Option String) (ts : List String) :
    wikiLoop (fun t => .ok (fp t)) ts = .ok (ts.flatMap (wikiTitleChunks fp)) := by
  induction ts with
  | nil => rfl
  | cons t rest ih =>
    simp only [wikiLoop, List.flatMap_cons, wikiTitleChunks]
    cases h : fp t with
    | none => simp only [h, ih]; rfl
    | some body => simp only [h, ih]; rfl

/-- Every formatted passage is nonempty (it starts with the bracketed
source tag). -/
theorem format_chunk_length (c : Passage) : 0 < (format_chunk c).length := by
  unfold format_chunk
  rw [String.length_append, String.length_append, String.length_append]
  have h1 : "[".length = 1 := rfl
  omega

/-- Joining a list whose head is nonempty yields a nonempty string. -/
theorem pyJoin_cons_ne_empty (sep : String) (x : String) (xs : List String)
    (hx : 0 < x.length) : pyJoin sep (x :: xs) ≠ "" := by
  intro h
  cases xs with
  | nil =>
    rw [pyJoin] at h
    rw [h] at hx
    exact (by decide : ¬ (0 : Nat) < "".length) hx
  | cons y ys =>
    have he : pyJoin sep (x :: y :: ys) = x ++ sep ++ pyJoin sep (y :: ys) := rfl
    rw [he] at h
    have hlen := congrArg String.length h
    rw [String.length_append, String.length_append] at hlen
    have h0 : ("" : String).length = 0 := rfl
    omega

/-- Sum of squares of a cons cell. -/
theorem sumSq_cons (x : ℝ) (v : List ℝ) : sumSq (x :: v) = x * x + sumSq v := by
  simp [sumSq]

/-- A sum of squares is nonnegative. -/
theorem sumSq_nonneg (v : List ℝ) : 0 ≤ sumSq v := by
  induction v with
  | nil => simp [sumSq]
  | cons x t ih => rw [sumSq_cons]; nlinarith [mul_self_nonneg x]

/-- Dividing every entry by `M` divides the sum of squares by `M ^ 2`. -/
theorem sumSq_map_div (v : List ℝ) (M : ℝ) :
    sumSq (v.map (fun x => x / M)) = sumSq v / M ^ 2 := by
  induction v with
  | nil => simp [sumSq]
  | cons x t ih =>
    rw [List.map_cons, sumSq_cons, sumSq_cons, ih, div_mul_div_comm,
      ← pow_two M, div_add_div_same]

/-- When the norm is at least the clamping epsilon, normalization is an
exact division by the norm and yields a unit vector. -/
theorem l2norm_normalize (v : List ℝ) (h : 1 / 10 ^ 12 ≤ l2norm v) :
    l2norm (l2normalize v) = 1 := by
  have hM : max (l2norm v) ((1 : ℝ) / 10 ^ 12) = l2norm v := max_eq_left h
  have hpos : 0 < l2norm v := lt_of_lt_of_le (by norm_num) h
  rw [show l2normalize v = v.map (fun x => x / l2norm v) by
    unfold l2normalize; rw [hM]]
  unfold l2norm at hpos ⊢
  rw [sumSq_map_div, Real.sqrt_div (sumSq_nonneg v),
    Real.sqrt_sq (Real.sqrt_nonneg _)]
  exact div_self (ne_of_gt hpos)

/-- Every element produced by a successful `Option`-valued `mapM` comes
from some input element. -/
theorem mapM_some_mem {α β : Type} {f : α → Option β} :
    ∀ {l : List α} {l' : List β}, l.mapM f = some l' → ∀ {b}, b ∈ l' →
      ∃ a, a ∈ l ∧ f a = some b := by
  intro l
  induction l with
  | nil =>
    intro l' h b hb
    simp only [List.mapM_nil] at h
    cases h
    cases hb
  | cons a t ih =>
    intro l' h b hb
    rw [List.mapM_cons] at h
    cases hfa : f a with
    | none => rw [hfa] at h; simp at h
    | some v =>
      rw [hfa] at h
      cases hmt : t.mapM f with
      | none => rw [hmt] at h; simp at h
      | some vs =>
        rw [hmt] at h
        have h2 : some (v :: vs) = some l' := h
        injection h2 with h3
        subst h3
        rcases List.mem_cons.mp hb with rfl | hb2
        · exact ⟨a, List.mem_cons_self a t, hfa⟩
        · obtain ⟨a2, ha2, hf2⟩ := ih hmt hb2
          exact ⟨a2, List.mem_cons_of_mem a ha2, hf2⟩

/-- The L2 norm of a one-entry vector with a nonnegative entry. -/
theorem l2norm_single (c : ℝ) (h : 0 ≤ c) : l2norm [c] = c := by
  unfold l2norm
  rw [show sumSq [c] = c ^ 2 by simp [sumSq]; ring]
  exact Real.sqrt_sq h

end CancerAI

namespace CancerAI

/-! ### Claim theorems -/

/-- Claim C1 (behavior at the failing input): a failed embedding call
does make `encode` return the empty sequence, but both callers of
`encode` then evaluate the first row of that empty sequence, which
raises `IndexError` instead of treating the query or passage as
contributing nothing — the search call and the rerank call abort. -/
theorem c1_encode_failure_crashes_callers :
    SolarEmbedder.encode (fun _ => none) ["q"] = [] ∧
    search_faiss_index (fun _ => []) ("q") demoIndex 5 ("Paper_DB")
      = .error .indexError ∧
    rerank_results (fun _ => []) ("q") [{ text := "c" }] 8
      = .error .indexError :=
  ⟨rfl, rfl, rfl⟩

/-- Claim C2: for a query of the index's dimension, raw hits whose slot
id is the `-1` sentinel or at least the metadata length are excluded —
the search result is unchanged when those hits are removed up front, so
the excluded slots are never dereferenced into the metadata list — and a
returned result has at most as many entries as there are raw hits, hence
possibly fewer than `top_k`. -/
theorem c2_search_excludes_invalid_slots (ix : FaissIndex) (q : List ℚ)
    (top_k : Nat) (hdim : q.length = ix.d)
    (hraw : (ix.rawSearch q top_k).length ≤ top_k) :
    ix.search q top_k
      = resolveHits ix.metadata ((ix.rawSearch q top_k).filter
          (fun h => !decide (h.2 = -1 ∨ (ix.metadata.length : Int) ≤ h.2))) ∧
    ∀ res, ix.search q top_k = .ok res → res.length ≤ top_k := by
  constructor
  · unfold FaissIndex.search
    rw [if_neg (by omega)]
    exact resolveHits_skip ix.metadata (ix.rawSearch q top_k)
  · intro res h
    unfold FaissIndex.search at h
    rw [if_neg (by omega)] at h
    exact le_trans (resolveHits_length ix.metadata _ res h) hraw

/-- Witness for claim C2 on a concrete index whose native search reports
four hits, two of them invalid. -/
theorem c2_search_excludes_invalid_slots_witness :
    ([(1 : ℚ), 0].length = demoIndex2.d) ∧
    ((demoIndex2.rawSearch [1, 0] 4).length ≤ 4) ∧
    (demoIndex2.search [1, 0] 4
      = resolveHits demoIndex2.metadata ((demoIndex2.rawSearch [1, 0] 4).filter
          (fun h => !decide (h.2 = -1 ∨ (demoIndex2.metadata.length : Int) ≤ h.2))) ∧
     ∀ res, demoIndex2.search [1, 0] 4 = .ok res → res.length ≤ 4) :=
  ⟨rfl, by decide, c2_search_excludes_invalid_slots demoIndex2 [1, 0] 4 rfl (by decide)⟩

/-- Claim C3: a query whose dimension differs from the index dimension
yields the distinguishable dimension-mismatch error — which is never the
"no results" outcome `.ok []` — and no call is made into the underlying
index: the outcome is identical for every native-search oracle. -/
theorem c3_dimension_mismatch_reported (ix : FaissIndex) (q : List ℚ)
    (top_k : Nat) (h : q.length ≠ ix.d) :
    ix.search q top_k = .error (.dimMismatch ix.d q.length) ∧
    ix.search q top_k ≠ .ok [] ∧
    ∀ raw, (FaissIndex.mk ix.d ix.metadata raw).search q top_k
      = ix.search q top_k := by
  refine ⟨?_, ?_, ?_⟩
  · unfold FaissIndex.search
    rw [if_pos h]
  · unfold FaissIndex.search
    rw [if_pos h]
    simp
  · intro raw
    unfold FaissIndex.search
    rw [if_pos h, if_pos h]

/-- Witness for claim C3: a one-dimensional query against the
two-dimensional demo index. -/
theorem c3_dimension_mismatch_reported_witness :
    ([(1 : ℚ)].length ≠ demoIndex.d) ∧
    (demoIndex.search [1] 5 = .error (.dimMismatch demoIndex.d [(1 : ℚ)].length) ∧
     demoIndex.search [1] 5 ≠ .ok [] ∧
     ∀ raw, (FaissIndex.mk demoIndex.d demoIndex.metadata raw).search [1] 5
       = demoIndex.search [1] 5) :=
  ⟨by decide, c3_dimension_mismatch_reported demoIndex [1] 5 (by decide)⟩

/-- Claim C4: on a nonempty pool whose passages can all be embedded,
`rerank_results` succeeds, its returned list has exactly
`min N top_k` entries sorted by score descending, and ties are broken by
the pool's original order: at every score value, filtering the result
gives a subsequence of the filtered scored pool. -/
theorem c4_rerank_sorted_stable_truncated (embed1 : String → List ℚ)
    (query : String) (cs : List Passage) (top_k : Nat) (hne : cs ≠ []) :
    ∃ pool res,
      rerank_results (fun t => [embed1 t]) query cs top_k = .ok (pool, res) ∧
      res.length = min cs.length top_k ∧
      res.Pairwise (fun a b => scoreOf b ≤ scoreOf a) ∧
      ∀ s : ℚ, List.Sublist (res.filter (fun p => p.score == some s))
        (pool.filter (fun p => p.score == some s)) := by
  refine ⟨cs.map (fun item =>
      { item with score := some (dotQ (embed1 query) (embed1 item.text)) }),
    ((cs.map (fun item =>
      { item with score := some (dotQ (embed1 query) (embed1 item.text))
      })).mergeSort scoreDesc).take top_k, ?_, ?_, ?_, ?_⟩
  · unfold rerank_results
    rw [if_neg (by simpa [List.isEmpty_iff] using hne)]
    simp only [List.head?_cons, scoreLoop_ok]
    rfl
  · simp [List.length_take, Nat.min_comm]
  · have h := List.sorted_mergeSort scoreDesc_trans scoreDesc_total
      (cs.map (fun item =>
        { item with score := some (dotQ (embed1 query) (embed1 item.text)) }))
    have h2 := List.Pairwise.sublist (List.take_sublist top_k _) h
    exact h2.imp (fun hab => by simpa [scoreDesc] using hab)
  · intro s
    have h1 := (List.take_sublist top_k ((cs.map (fun item =>
      { item with score := some (dotQ (embed1 query) (embed1 item.text))
      })).mergeSort scoreDesc)).filter (fun p => p.score == some s)
    rw [mergeSort_filter_score s] at h1
    exact h1

/-- Witness for claim C4: three candidates, two of them tied, truncated
to the top two. -/
theorem c4_rerank_sorted_stable_truncated_witness :
    poolDemo ≠ [] ∧
    (∃ pool res,
      rerank_results (fun t => [embedDemo t]) ("q") poolDemo 2 = .ok (pool, res) ∧
      res.length = min poolDemo.length 2 ∧
      res.Pairwise (fun a b => scoreOf b ≤ scoreOf a) ∧
      ∀ s : ℚ, List.Sublist (res.filter (fun p => p.score == some s))
        (pool.filter (fun p => p.score == some s))) :=
  ⟨by decide, c4_rerank_sorted_stable_truncated embedDemo ("q") poolDemo 2 (by decide)⟩

/-- Claim C5: on the query "EGFR mutation analysis" with five candidate
slots, the extracted titles include the fully-uppercase token preserved
as-is, include the bigram candidate built from "mutation analysis", and
contain no stop word in any casing. -/
theorem c5_extract_candidate_titles_egfr :
    "EGFR" ∈ extract_candidate_titles ("EGFR mutation analysis") 5 ∧
    "Mutation Analysis" ∈ extract_candidate_titles ("EGFR mutation analysis") 5 ∧
    (extract_candidate_titles ("EGFR mutation analysis") 5).all
      (fun t => !(stopwords.contains (pyLower t))) = true := by
  decide

/-- Claim C6 counterexample: the lookup loop has no per-title exception
handler, so a raised lookup error on the first candidate title of "EGFR
mutation analysis" aborts the whole call; with the same oracle merely
reporting a missing first page instead, the second title does contribute
its chunk — which the aborted call lost. -/
theorem c6_lookup_error_aborts_loop :
    search_wikipedia_chunks fetchBoom ("EGFR mutation analysis") 2
      = .error (.lookupError ("Egfr Mutation")) ∧
    search_wikipedia_chunks fetchMiss ("EGFR mutation analysis") 2
      = .ok [{ text := longPara,
               source := some ("Wikipedia (Mutation Analysis)"),
               title := some ("Mutation Analysis") }] := by
  constructor <;> rfl

/-- Claim C6 as amended: when the fetch oracle reports failures as
missing pages rather than raising, a failed title is skipped and probing
continues: every candidate title is probed and contributes its chunks in
order. A raised exception, by contrast, propagates (see the
counterexample). -/
theorem c6_missing_page_skipped (fp : String → Option String) (query : String)
    (max_pages : Nat) :
    search_wikipedia_chunks (fun t => .ok (fp t)) query max_pages
      = .ok ((extract_candidate_titles query max_pages).flatMap
          (wikiTitleChunks fp)) := by
  unfold search_wikipedia_chunks
  by_cases h : (extract_candidate_titles query max_pages).isEmpty
  · rw [if_pos h]
    rw [List.isEmpty_iff] at h
    rw [h]
    rfl
  · rw [if_neg h, wikiLoop_ok]

/-- Claim C7: a successful context build never returns the empty string,
and with no index loaded and the encyclopedia disabled it returns exactly
the fixed sentinel. -/
theorem c7_context_sentinel_nonempty (embedder : Emb) (fetch : Fetch)
    (query : String) (vector_db : Option FaissIndex) (use_wiki : Bool)
    (s : String)
    (h : get_relevant_context embedder fetch query vector_db use_wiki = .ok s) :
    s ≠ "" ∧
    (vector_db = none → use_wiki = false →
      s = "No relevant documents found.") := by
  constructor
  · unfold get_relevant_context at h
    obtain ⟨g, hg, h⟩ := except_bind_ok h
    obtain ⟨w, hw, h⟩ := except_bind_ok h
    obtain ⟨br, hbr, h⟩ := except_bind_ok h
    dsimp only at h
    by_cases he : (br.2.map format_chunk).isEmpty
    · rw [if_pos he] at h
      injection h with hs
      rw [← hs]
      decide
    · rw [if_neg he] at h
      injection h with hs
      rw [← hs]
      cases hb : br.2 with
      | nil => rw [hb] at he; simp at he
      | cons c rest =>
        rw [List.map_cons]
        exact pyJoin_cons_ne_empty ("\n\n") (format_chunk c)
          (rest.map format_chunk) (format_chunk_length c)
  · intro h1 h2
    subst h1
    subst h2
    have hr : get_relevant_context embedder fetch query none false
        = Except.ok ("No relevant documents found.") := rfl
    rw [hr] at h
    injection h with hs
    exact hs.symm

/-- Witness for claim C7: the no-index, no-encyclopedia configuration
returns the sentinel, which is nonempty. -/
theorem c7_context_sentinel_nonempty_witness :
    get_relevant_context (fun _ => []) (fun _ => .ok none) ("q") none false
      = .ok ("No relevant documents found.") ∧
    ("No relevant documents found." ≠ "" ∧
     ((none : Option FaissIndex) = none → false = false →
       "No relevant documents found." = "No relevant documents found.")) :=
  ⟨rfl, c7_context_sentinel_nonempty (fun _ => []) (fun _ => .ok none) ("q")
    none false ("No relevant documents found.") rfl⟩

/-- Claim C8: on an empty candidate list `rerank_results` returns the
empty sequence immediately, for every embedder — in particular for one
whose encoding of the query would fail, so the embedding provider is
never consulted. -/
theorem c8_rerank_empty_immediate (embedder : Emb) (query : String)
    (top_k : Nat) :
    rerank_results embedder query [] top_k = .ok ([], []) := rfl

/-- Claim C9 counterexample: the provider row `[1/10^30]` is nonzero
(non-degenerate), yet the returned vector `[1/10^18]` has L2 norm
`1/10^18`, which is not within `1/10^6` of 1 — the clamped divisor
`1/10^12` does not renormalize vectors whose norm lies below the
epsilon. -/
theorem c9_tiny_vector_counterexample :
    SolarEmbedder.encode tinyOracle ["x"] = [[1 / 10 ^ 18]] ∧
    ((1 : ℝ) / 10 ^ 18 ≠ 0) ∧
    ¬ |l2norm [(1 : ℝ) / 10 ^ 18] - 1| ≤ 1 / 10 ^ 6 := by
  refine ⟨?_, by norm_num, ?_⟩
  · have h1 : SolarEmbedder.encode tinyOracle ["x"]
        = [l2normalize [1 / 10 ^ 30]] := rfl
    rw [h1]
    have hn : l2norm [(1 : ℝ) / 10 ^ 30] = 1 / 10 ^ 30 :=
      l2norm_single _ (by norm_num)
    unfold l2normalize
    rw [hn, max_eq_right (by norm_num : (1 : ℝ) / 10 ^ 30 ≤ 1 / 10 ^ 12)]
    simp only [List.map_cons, List.map_nil]
    norm_num
  · rw [l2norm_single _ (by norm_num)]
    rw [abs_of_nonpos (by norm_num)]
    norm_num

/-- Claim C9 as amended: the norm divisor `max(norm, 1/10^12)` is always
positive, so no division by zero occurs even for an all-zero row; and
every vector returned by `encode` whose pre-normalization norm is at
least the epsilon has L2 norm exactly 1 (hence within any tolerance). -/
theorem c9_clamped_normalization (oracle : String → Option (List ℝ))
    (texts : List String)
    (hnorm : ∀ t v, oracle t = some v → 1 / 10 ^ 12 ≤ l2norm v) :
    (∀ v : List ℝ, 0 < max (l2norm v) (1 / 10 ^ 12)) ∧
    ∀ w ∈ SolarEmbedder.encode oracle texts, l2norm w = 1 := by
  constructor
  · intro v
    exact lt_of_lt_of_le (by norm_num) (le_max_right _ _)
  · intro w hw
    unfold SolarEmbedder.encode at hw
    by_cases hv : (texts.filter (fun t => pyStrip t ≠ "")).isEmpty
    · rw [if_pos hv] at hw
      cases hw
    · rw [if_neg hv] at hw
      cases hm : (texts.filter (fun t => pyStrip t ≠ "")).mapM oracle with
      | none => rw [hm] at hw; cases hw
      | some vectors =>
        rw [hm] at hw
        obtain ⟨v, hv2, rfl⟩ := List.mem_map.mp hw
        obtain ⟨t, _, ht⟩ := mapM_some_mem hm hv2
        exact l2norm_normalize v (hnorm t v ht)

/-- Witness for the amended claim C9: an oracle whose single row has
norm 5 satisfies the epsilon bound, and its encoded output is unit. -/
theorem c9_clamped_normalization_witness :
    (∀ t v, ora34 t = some v → 1 / 10 ^ 12 ≤ l2norm v) ∧
    ((∀ v : List ℝ, 0 < max (l2norm v) (1 / 10 ^ 12)) ∧
     ∀ w ∈ SolarEmbedder.encode ora34 ["x"], l2norm w = 1) := by
  have hhyp : ∀ t v, ora34 t = some v → 1 / 10 ^ 12 ≤ l2norm v := by
    intro t v h
    have h2 : some [(3 : ℝ), 4] = some v := h
    injection h2 with h3
    subst h3
    have h5 : l2norm [(3 : ℝ), 4] = 5 := by
      unfold l2norm
      rw [show sumSq [(3 : ℝ), 4] = 5 ^ 2 by simp [sumSq]; norm_num]
      exact Real.sqrt_sq (by norm_num)
    rw [h5]
    norm_num
  exact ⟨hhyp, c9_clamped_normalization ora34 ["x"] hhyp⟩

/-- Claim C10: on a nonempty, embeddable pool, the pool as it stands
after the `rerank_results` call is the original pool with a score
assigned in place to every passage — including those beyond `top_k`,
which are absent from the returned (truncated) list. -/
theorem c10_rerank_scores_whole_pool (embed1 : String → List ℚ)
    (query : String) (cs : List Passage) (top_k : Nat) (hne : cs ≠ []) :
    ∃ pool res,
      rerank_results (fun t => [embed1 t]) query cs top_k = .ok (pool, res) ∧
      pool.map (fun p => { p with score := none })
        = cs.map (fun p => { p with score := none }) ∧
      pool.all (fun p => p.score.isSome) = true ∧
      res.length = min cs.length top_k := by
  refine ⟨cs.map (fun item =>
      { item with score := some (dotQ (embed1 query) (embed1 item.text)) }),
    ((cs.map (fun item =>
      { item with score := some (dotQ (embed1 query) (embed1 item.text))
      })).mergeSort scoreDesc).take top_k, ?_, ?_, ?_, ?_⟩
  · unfold rerank_results
    rw [if_neg (by simpa [List.isEmpty_iff] using hne)]
    simp only [List.head?_cons, scoreLoop_ok]
    rfl
  · rw [List.map_map]
    rfl
  · simp
  · simp [List.length_take, Nat.min_comm]

/-- Witness for claim C10: with `top_k = 1`, the pool after the call
carries scores on all three passages though only one is returned. -/
theorem c10_rerank_scores_whole_pool_witness :
    poolDemo ≠ [] ∧
    (∃ pool res,
      rerank_results (fun t => [embedDemo t]) ("qq") poolDemo 1 = .ok (pool, res) ∧
      pool.map (fun p => { p with score := none })
        = poolDemo.map (fun p => { p with score := none }) ∧
      pool.all (fun p => p.score.isSome) = true ∧
      res.length = min poolDemo.length 1) :=
  ⟨by decide, c10_rerank_scores_whole_pool embedDemo ("qq") poolDemo 1 (by decide)⟩

end CancerAI
